import Mathlib

/-!
Verification of the gemini-automator repository: a shallow embedding of its
watermark-removal engine and of its batch-orchestration state machine,
together with theorems settling the specification's claims about them.

Modelling conventions.  JavaScript numbers are modelled exactly over the
rationals; pixel bytes are integers; a decoded canvas buffer (an ImageData)
is its dimensions together with a total function from byte index to stored
value, and a store to an index outside the range of the backing
Uint8ClampedArray is dropped, matching the semantics of out-of-range writes
on a JS typed array.  Asynchronous control flow is modelled as a small-step
transition system whose atomic steps are the synchronous segments between
await points.
-/

namespace GeminiAutomator

/-! ### Watermark removal engine (gemini-automator.user.js, lines 29-155) -/

/-- Model of JS Math.round: round half toward positive infinity. -/
def jsRound (q : ℚ) : ℤ := ⌊q + 1/2⌋

/-- Model of the byte clamp applied to each computed channel value, i.e.
Math.max(0, Math.min(255, v)). -/
def clampByte (v : ℤ) : ℤ := max 0 (min 255 v)

/-- Constant ALPHA_THRESHOLD = 0.002 of the user script. -/
def ALPHA_THRESHOLD : ℚ := 2/1000

/-- Constant MAX_ALPHA = 0.99 of the user script. -/
def MAX_ALPHA : ℚ := 99/100

/-- Constant LOGO_VALUE = 255 of the user script. -/
def LOGO_VALUE : ℚ := 255

/-- A decoded pixel buffer (ImageData): RGBA bytes in row-major order, the
byte of channel c of the pixel at column x, row y sitting at index
(y*width + x)*4 + c of the data array. -/
structure ImageData where
  width : ℕ
  height : ℕ
  data : ℤ → ℤ

/-- Length of the backing data array: width * height * 4. -/
def ImageData.len (img : ImageData) : ℕ := img.width * img.height * 4

/-- The footprint descriptor produced by calculateWatermarkPosition:
fields x, y, width, height, all JS numbers (x and y may be negative when
the image is smaller than the footprint). -/
structure Position where
  x : ℤ
  y : ℤ
  width : ℤ
  height : ℤ
deriving DecidableEq

/-- A store data[i] = v on a typed array of the given length: writes to
out-of-range canonical indices are dropped, all others update index i. -/
def writeByte (len : ℕ) (d : ℤ → ℤ) (i : ℤ) (v : ℤ) : ℤ → ℤ :=
  if 0 ≤ i ∧ i < (len : ℤ) then fun j => if j = i then v else d j else d

/-- The per-channel body of removeWatermark (user script lines 65-67):
original = (watermarked - alpha*LOGO_VALUE) / (1 - alpha), then
Math.max(0, Math.min(255, Math.round(original))). -/
def restoreChannel (alpha : ℚ) (watermarked : ℤ) : ℤ :=
  clampByte (jsRound (((watermarked : ℚ) - alpha * LOGO_VALUE) / (1 - alpha)))

/-- The inner channel loop of removeWatermark (for c = 0; c < 3; c++),
unrolled: three sequential read-modify-write stores at imgIdx + c. -/
def processChannels (len : ℕ) (alpha : ℚ) (imgIdx : ℤ) (d : ℤ → ℤ) : ℤ → ℤ :=
  let d0 := writeByte len d imgIdx (restoreChannel alpha (d imgIdx))
  let d1 := writeByte len d0 (imgIdx + 1) (restoreChannel alpha (d0 (imgIdx + 1)))
  writeByte len d1 (imgIdx + 2) (restoreChannel alpha (d1 (imgIdx + 2)))

/-- The row-major sequence of (row, col) pairs visited by the two nested
loops of removeWatermark. -/
def footprintPixels (position : Position) : List (ℕ × ℕ) :=
  (List.range position.height.toNat).flatMap fun row =>
    (List.range position.width.toNat).map fun col => (row, col)

/-- One iteration of the nested loop body of removeWatermark (user script
lines 58-68): look up alpha at row*width+col, skip the pixel when it is
below ALPHA_THRESHOLD, otherwise clamp it to MAX_ALPHA and rewrite the
three color bytes at imgIdx = ((y+row)*imageWidth + (x+col))*4. -/
def pixelStep (imgWidth len : ℕ) (alphaMap : ℕ → ℚ) (position : Position)
    (d : ℤ → ℤ) (rc : ℕ × ℕ) : ℤ → ℤ :=
  let imgIdx : ℤ := ((position.y + rc.1) * imgWidth + (position.x + rc.2)) * 4
  let alpha := alphaMap (rc.1 * position.width.toNat + rc.2)
  if alpha < ALPHA_THRESHOLD then d
  else processChannels len (min alpha MAX_ALPHA) imgIdx d

/-- removeWatermark(imageData, alphaMap, position), user script lines
54-71: run the nested loops over the footprint, mutating the buffer. -/
def removeWatermark (imageData : ImageData) (alphaMap : ℕ → ℚ)
    (position : Position) : ImageData :=
  { imageData with
    data := (footprintPixels position).foldl
      (pixelStep imageData.width imageData.len alphaMap position)
      imageData.data }

/-- The calibration record returned by detectWatermarkConfig. -/
structure WatermarkConfig where
  logoSize : ℤ
  marginRight : ℤ
  marginBottom : ℤ
deriving DecidableEq

/-- detectWatermarkConfig(imageWidth, imageHeight), user script lines
76-81: the Large variant (logo 96, margins 64) exactly when both
dimensions exceed 1024, otherwise the Small variant (logo 48, margins 32). -/
def detectWatermarkConfig (imageWidth imageHeight : ℤ) : WatermarkConfig :=
  if 1024 < imageWidth ∧ 1024 < imageHeight then ⟨96, 64, 64⟩ else ⟨48, 32, 32⟩

/-- calculateWatermarkPosition(imageWidth, imageHeight, config), user
script lines 86-94. -/
def calculateWatermarkPosition (imageWidth imageHeight : ℤ)
    (config : WatermarkConfig) : Position :=
  { x := imageWidth - config.marginRight - config.logoSize
    y := imageHeight - config.marginBottom - config.logoSize
    width := config.logoSize
    height := config.logoSize }

/-- WatermarkEngine.removeWatermarkFromImage (user script lines 142-155):
detect the config and position from the image dimensions, fetch the cached
alpha map for the logo size, and run removeWatermark on the decoded buffer.
The alpha maps, derived from the external reference captures of
watermark-data.js, are abstracted as a function of the logo size. -/
def removeWatermarkFromImage (alphaMapFor : ℤ → ℕ → ℚ) (image : ImageData) :
    ImageData :=
  let config := detectWatermarkConfig (image.width : ℤ) (image.height : ℤ)
  let position := calculateWatermarkPosition (image.width : ℤ) (image.height : ℤ) config
  removeWatermark image (alphaMapFor config.logoSize) position

/-- The base byte index of the pixel targeted by loop iteration rc, namely
imgIdx = ((y+row)*imageWidth + (x+col))*4. -/
def pixelBase (imgWidth : ℕ) (position : Position) (rc : ℕ × ℕ) : ℤ :=
  ((position.y + rc.1) * imgWidth + (position.x + rc.2)) * 4

/-- The footprint lies fully inside an imgWidth × imgHeight image. -/
def Position.inBounds (position : Position) (imgWidth imgHeight : ℕ) : Prop :=
  0 ≤ position.x ∧ position.x + position.width ≤ (imgWidth : ℤ) ∧
  0 ≤ position.y ∧ position.y + position.height ≤ (imgHeight : ℤ)

/-- Modelled from the spec's round-trip test: the synthetic composite
observed = a*255 + (1-a)*original of a pure-white watermark at opacity a
over an original byte, quantized to a byte with Math.round when the
composite buffer is built. -/
def compositeByte (a : ℚ) (original : ℤ) : ℤ :=
  jsRound (a * 255 + (1 - a) * original)

/-! ### Batch orchestration (sidepanel.js and content.js) -/

/-- validateSettings (sidepanel.js lines 158-177); the two delay inputs
are modelled as integers. -/
def validateSettings (prompts : List String) (minDelay maxDelay : ℤ) :
    List String :=
  (if prompts.length = 0 then ["Please enter at least one prompt"] else []) ++
  (if minDelay ≥ maxDelay then ["Min delay must be less than max delay"] else []) ++
  (if minDelay < 5 then ["Min delay must be at least 5 seconds"] else [])

/-- The status pill of the side panel, as set by setRunningState,
setPausedState, setResumedState, setStoppedState and setCompletedState. -/
inductive Status
  | idle
  | running
  | paused
  | stopped
  | completed
deriving DecidableEq

/-- Control points of the startBatchProcess loop, one per await point:
before the for-condition of iteration i, inside the pause-wait sleep,
inside the awaits that process item i, inside the inter-item delay, and
after the loop has exited. -/
inductive PC
  | notStarted
  | atTop (i : ℕ)
  | atPause (i : ℕ)
  | atStep (i : ℕ)
  | atDelay (i : ℕ)
  | done
deriving DecidableEq

/-- The mutable panel state: the state object of sidepanel.js (lines
10-15) plus the status pill and the loop control point. -/
structure PanelState where
  prompts : List String
  isRunning : Bool
  isPaused : Bool
  currentIndex : ℕ
  status : Status
  pc : PC
deriving DecidableEq

/-- Resolution of one item by the environment, at the awaits of
startBatchProcess lines 214-287: the tab check may throw (tab closed, line
229), the three remote steps return a result whose success flag is
consulted at line 255, a sendMessage may throw the connection-lost error
(line 281), or some other exception lands in the catch without a break. -/
inductive ItemOutcome
  | tabClosed
  | result (success : Bool)
  | connectionLost
  | otherError
deriving DecidableEq

/-- The for-condition together with lines 194-205 for iteration i, and,
when the loop exits, the completion block of lines 291-311. -/
def stepTop (s : PanelState) (i : ℕ) : PanelState :=
  if i < s.prompts.length then
    if ¬ s.isRunning then { s with pc := .done }
    else if s.isPaused then { s with pc := .atPause i }
    else { s with pc := .atStep i }
  else if s.isRunning then
    { s with
      currentIndex := s.prompts.length
      status := .completed
      isRunning := false
      pc := .done }
  else { s with pc := .done }

/-- One wake-up of the pause-wait poll (lines 201-205): keep sleeping
while isPaused and isRunning both hold, then re-check isRunning. -/
def stepPauseWait (s : PanelState) (i : ℕ) : PanelState :=
  if s.isPaused ∧ s.isRunning then s
  else if ¬ s.isRunning then { s with pc := .done }
  else { s with pc := .atStep i }

/-- Resolution of item i (lines 214-287): a thrown tab-closed or
connection-lost error clears isRunning and breaks; a result with success
false logs and continues without touching currentIndex; any other error
is logged and the loop continues; on success currentIndex advances to
i+1 and the inter-item delay is taken when more items remain. -/
def stepItem (s : PanelState) (i : ℕ) (o : ItemOutcome) : PanelState :=
  match o with
  | .tabClosed => { s with isRunning := false, pc := .done }
  | .connectionLost => { s with isRunning := false, pc := .done }
  | .otherError => { s with pc := .atTop (i + 1) }
  | .result false => { s with pc := .atTop (i + 1) }
  | .result true =>
      if i + 1 < s.prompts.length then
        { s with currentIndex := i + 1, pc := .atDelay i }
      else { s with currentIndex := i + 1, pc := .atTop (i + 1) }

/-- End of the inter-item randomized delay (lines 267-274). -/
def stepDelay (s : PanelState) (i : ℕ) : PanelState :=
  { s with pc := .atTop (i + 1) }

/-- The start button handler (lines 361-421): parsePrompts() runs first
and overwrites state.prompts with the list parsed from the textarea
(parsing of the raw text is the UI layer's string munging, abstracted
here as the already-parsed list), then validateSettings; on failure the
errors are logged and the handler returns.  The Gemini-tab check and the
content-script injection are external collaborators, abstracted by envOk.
On success the run state is initialized and the loop spawned at item 0.
The returned list holds the logged error lines. -/
def startClick (s : PanelState) (parsedPrompts : List String)
    (minDelay maxDelay : ℤ) (envOk : Bool) : PanelState × List String :=
  let s₁ := { s with prompts := parsedPrompts }
  let errors := validateSettings s₁.prompts minDelay maxDelay
  if errors ≠ [] then (s₁, errors)
  else if ¬ envOk then (s₁, ["Please open Gemini tab before starting"])
  else
    ({ s₁ with
        isRunning := true
        isPaused := false
        currentIndex := 0
        status := .running
        pc := .atTop 0 }, [])

/-- The pause/resume button handler (lines 423-435). -/
def pauseClick (s : PanelState) : PanelState :=
  if s.isPaused then { s with isPaused := false, status := .running }
  else { s with isPaused := true, status := .paused }

/-- The stop button handler (lines 437-442): clears both flags. -/
def stopClick (s : PanelState) : PanelState :=
  { s with isRunning := false, isPaused := false, status := .stopped }

/-- The start button is enabled outside a run: initially, and re-enabled
by setStoppedState and setCompletedState. -/
def startEnabled (s : PanelState) : Prop :=
  s.status = .idle ∨ s.status = .stopped ∨ s.status = .completed

/-- The pause and stop buttons are enabled only during a run. -/
def runButtonsEnabled (s : PanelState) : Prop :=
  s.status = .running ∨ s.status = .paused

instance (s : PanelState) : Decidable (startEnabled s) := by
  unfold startEnabled
  infer_instance

instance (s : PanelState) : Decidable (runButtonsEnabled s) := by
  unfold runButtonsEnabled
  infer_instance

/-- One atomic step of the panel: a synchronous segment of the batch loop
between awaits, or a button handler (handlers run only while the loop sits
at an await point, and only while their button is enabled; at most one
loop instance runs at a time, so a start fires only before the first loop
or after the current loop has exited).  The allowStart flag carves out the
sub-system in which no further start event occurs. -/
inductive Step (allowStart : Bool) : PanelState → PanelState → Prop
  | top (s : PanelState) (i : ℕ) (h : s.pc = .atTop i) :
      Step allowStart s (stepTop s i)
  | pauseWait (s : PanelState) (i : ℕ) (h : s.pc = .atPause i) :
      Step allowStart s (stepPauseWait s i)
  | item (s : PanelState) (i : ℕ) (o : ItemOutcome) (h : s.pc = .atStep i) :
      Step allowStart s (stepItem s i o)
  | delay (s : PanelState) (i : ℕ) (h : s.pc = .atDelay i) :
      Step allowStart s (stepDelay s i)
  | start (s : PanelState) (parsedPrompts : List String)
      (minDelay maxDelay : ℤ) (envOk : Bool) (ha : allowStart = true)
      (hpc : s.pc = .notStarted ∨ s.pc = .done) (he : startEnabled s) :
      Step allowStart s (startClick s parsedPrompts minDelay maxDelay envOk).1
  | pauseBtn (s : PanelState) (h : runButtonsEnabled s) :
      Step allowStart s (pauseClick s)
  | stopBtn (s : PanelState) (h : runButtonsEnabled s) :
      Step allowStart s (stopClick s)

/-- The panel state at startup. -/
def initState : PanelState :=
  { prompts := [], isRunning := false, isPaused := false, currentIndex := 0,
    status := .idle, pc := .notStarted }

/-- States reachable from panel startup via loop steps and handlers. -/
def Reachable (s : PanelState) : Prop :=
  Relation.ReflTransGen (Step true) initState s

/-- A step dispatches a new item when it moves the loop into the
atStep control point. -/
def dispatchesItem (s s' : PanelState) : Prop :=
  ∃ i, s'.pc = .atStep i ∧ s.pc ≠ .atStep i

/-- The result object of content.js waitForCompletion. -/
structure CompletionResult where
  success : Bool
  error : Option String
  message : Option String
deriving DecidableEq

/-- waitForCompletion (content.js lines 186-263), abstracted over whether
the stop button disappeared before the fixed 3-minute ceiling: on
completion it resolves success with message Complete (lines 206, 236,
258); when the ceiling fires it resolves success false with error Timeout
(lines 211-215). -/
def waitForCompletionResult (completedBeforeTimeout : Bool) : CompletionResult :=
  if completedBeforeTimeout then ⟨true, none, some "Complete"⟩
  else ⟨false, some "Timeout", none⟩

/-! ### Per-image processing (processImage, user script lines 419-456) -/

/-- The per-image attributes consulted and mutated by processImage: the
dataset.watermarkProcessed marker, the displayed src, and the saved
dataset.originalSrc. -/
structure ImgElement where
  mark : Option String
  src : String
  originalSrc : Option String
deriving DecidableEq

/-- The state read by the guards of processImage: the watermark-removal
toggle, whether the engine initialized, whether this element is in the
processingQueue, and the element itself. -/
structure ImageProcState where
  removeWatermark : Bool
  hasEngine : Bool
  inQueue : Bool
  img : ImgElement
deriving DecidableEq

/-- The synchronous opening of processImage (lines 419-432), up to its
first await: the early-return guards in source order — feature toggle,
engine and in-flight queue, then dataset.watermarkProcessed === 'true' —
and, on passing all of them, the queue insertion, the 'processing'
marker, the saved original src and the cleared src.  The returned flag
reports whether processing (the fetch of the full-resolution bytes and
the pixel rewrite) was started. -/
def processImageBegin (s : ImageProcState) : ImageProcState × Bool :=
  if ¬ s.removeWatermark then (s, false)
  else if ¬ s.hasEngine ∨ s.inQueue then (s, false)
  else if s.img.mark = some "true" then (s, false)
  else ({ s with
    inQueue := true
    img := { mark := some "processing", src := "", originalSrc := some s.img.src } },
    true)

/-! ### Frame lemmas about the pixel loop -/

theorem writeByte_ne (len : ℕ) (d : ℤ → ℤ) (i v j : ℤ) (h : j ≠ i) :
    writeByte len d i v j = d j := by
  unfold writeByte
  split
  · simp [h]
  · rfl

theorem writeByte_self (len : ℕ) (d : ℤ → ℤ) (i v : ℤ)
    (h0 : 0 ≤ i) (h1 : i < (len : ℤ)) :
    writeByte len d i v i = v := by
  unfold writeByte
  rw [if_pos ⟨h0, h1⟩]
  simp

theorem writeByte_out (len : ℕ) (d : ℤ → ℤ) (i v : ℤ)
    (h : ¬(0 ≤ i ∧ i < (len : ℤ))) :
    writeByte len d i v = d := by
  unfold writeByte
  rw [if_neg h]

theorem writeByte_eq_or (len : ℕ) (d : ℤ → ℤ) (i v j : ℤ) :
    writeByte len d i v j = d j ∨ writeByte len d i v j = v := by
  unfold writeByte
  split
  · dsimp only
    split
    · exact Or.inr rfl
    · exact Or.inl rfl
  · exact Or.inl rfl

theorem processChannels_ne (len : ℕ) (a : ℚ) (k : ℤ) (d : ℤ → ℤ) (t : ℤ)
    (h0 : t ≠ k) (h1 : t ≠ k + 1) (h2 : t ≠ k + 2) :
    processChannels len a k d t = d t := by
  unfold processChannels
  rw [writeByte_ne _ _ _ _ _ h2, writeByte_ne _ _ _ _ _ h1,
    writeByte_ne _ _ _ _ _ h0]

theorem processChannels_eq_or (len : ℕ) (a : ℚ) (k : ℤ) (d : ℤ → ℤ) (j : ℤ) :
    processChannels len a k d j = d j ∨
    (0 ≤ processChannels len a k d j ∧ processChannels len a k d j ≤ 255) := by
  have hclamp : ∀ w : ℤ, 0 ≤ restoreChannel a w ∧ restoreChannel a w ≤ 255 := by
    intro w
    unfold restoreChannel clampByte
    omega
  unfold processChannels
  rcases writeByte_eq_or len _ (k + 2) (restoreChannel a _) j with h2 | h2
  · rw [h2]
    rcases writeByte_eq_or len _ (k + 1) (restoreChannel a _) j with h1 | h1
    · rw [h1]
      rcases writeByte_eq_or len d k (restoreChannel a (d k)) j with h0 | h0
      · rw [h0]
        exact Or.inl rfl
      · rw [h0]
        exact Or.inr (hclamp _)
    · rw [h1]
      exact Or.inr (hclamp _)
  · rw [h2]
    exact Or.inr (hclamp _)

/-- Value of the channel loop at one of its own three target bytes: the
store at k + c reads the pre-state at k + c (the two other stores hit
different indices) and lands only when k + c is in range. -/
theorem processChannels_at (len : ℕ) (a : ℚ) (k : ℤ) (d : ℤ → ℤ) (c : ℕ)
    (hc : c < 3) :
    processChannels len a k d (k + c) =
      if 0 ≤ k + c ∧ k + c < (len : ℤ) then restoreChannel a (d (k + c))
      else d (k + c) := by
  interval_cases c
  · have e : k + ((0 : ℕ) : ℤ) = k := by norm_num
    rw [e]
    unfold processChannels
    rw [writeByte_ne _ _ _ _ _ (show k ≠ k + 2 by omega),
      writeByte_ne _ _ _ _ _ (show k ≠ k + 1 by omega)]
    by_cases hr : 0 ≤ k ∧ k < (len : ℤ)
    · rw [writeByte_self _ _ _ _ hr.1 hr.2, if_pos hr]
    · rw [writeByte_out _ _ _ _ hr, if_neg hr]
  · have e : k + ((1 : ℕ) : ℤ) = k + 1 := by norm_num
    rw [e]
    unfold processChannels
    rw [writeByte_ne _ _ _ _ _ (show k + 1 ≠ k + 2 by omega),
      writeByte_ne len d k _ (k + 1) (show k + 1 ≠ k by omega)]
    by_cases hr : 0 ≤ k + 1 ∧ k + 1 < (len : ℤ)
    · rw [writeByte_self _ _ _ _ hr.1 hr.2, if_pos hr]
    · rw [writeByte_out _ _ _ _ hr, if_neg hr,
        writeByte_ne len d k _ (k + 1) (show k + 1 ≠ k by omega)]
  · have e : k + ((2 : ℕ) : ℤ) = k + 2 := by norm_num
    rw [e]
    unfold processChannels
    rw [writeByte_ne len _ (k + 1) _ (k + 2) (show k + 2 ≠ k + 1 by omega),
      writeByte_ne len d k _ (k + 2) (show k + 2 ≠ k by omega)]
    by_cases hr : 0 ≤ k + 2 ∧ k + 2 < (len : ℤ)
    · rw [writeByte_self _ _ _ _ hr.1 hr.2, if_pos hr]
    · rw [writeByte_out _ _ _ _ hr, if_neg hr,
        writeByte_ne len _ (k + 1) _ (k + 2) (show k + 2 ≠ k + 1 by omega),
        writeByte_ne len d k _ (k + 2) (show k + 2 ≠ k by omega)]

theorem pixelStep_ne (imgWidth len : ℕ) (am : ℕ → ℚ) (pos : Position)
    (d : ℤ → ℤ) (rc : ℕ × ℕ) (t : ℤ)
    (h0 : t ≠ pixelBase imgWidth pos rc)
    (h1 : t ≠ pixelBase imgWidth pos rc + 1)
    (h2 : t ≠ pixelBase imgWidth pos rc + 2) :
    pixelStep imgWidth len am pos d rc t = d t := by
  unfold pixelStep
  split
  · rfl
  · exact processChannels_ne _ _ _ _ _ h0 h1 h2

theorem pixelStep_eq_or (imgWidth len : ℕ) (am : ℕ → ℚ) (pos : Position)
    (d : ℤ → ℤ) (rc : ℕ × ℕ) (j : ℤ) :
    pixelStep imgWidth len am pos d rc j = d j ∨
    (0 ≤ pixelStep imgWidth len am pos d rc j ∧
      pixelStep imgWidth len am pos d rc j ≤ 255) := by
  unfold pixelStep
  split
  · exact Or.inl rfl
  · exact processChannels_eq_or _ _ _ _ _

/-- A pixel whose alpha entry is below ALPHA_THRESHOLD is skipped whole. -/
theorem pixelStep_skip (imgWidth len : ℕ) (am : ℕ → ℚ) (pos : Position)
    (d : ℤ → ℤ) (rc : ℕ × ℕ)
    (h : am (rc.1 * pos.width.toNat + rc.2) < ALPHA_THRESHOLD) :
    pixelStep imgWidth len am pos d rc = d := by
  unfold pixelStep
  rw [if_pos h]

/-- Value of one loop iteration at one of its own three target bytes. -/
theorem pixelStep_at (imgWidth len : ℕ) (am : ℕ → ℚ) (pos : Position)
    (d : ℤ → ℤ) (rc : ℕ × ℕ) (c : ℕ) (hc : c < 3) :
    pixelStep imgWidth len am pos d rc (pixelBase imgWidth pos rc + c) =
      (if am (rc.1 * pos.width.toNat + rc.2) < ALPHA_THRESHOLD then
        d (pixelBase imgWidth pos rc + c)
      else if 0 ≤ pixelBase imgWidth pos rc + c ∧
          pixelBase imgWidth pos rc + c < (len : ℤ) then
        restoreChannel (min (am (rc.1 * pos.width.toNat + rc.2)) MAX_ALPHA)
          (d (pixelBase imgWidth pos rc + c))
      else d (pixelBase imgWidth pos rc + c)) := by
  unfold pixelStep
  split
  · rfl
  · exact processChannels_at _ _ _ _ _ hc

theorem foldl_pixelStep_ne (imgWidth len : ℕ) (am : ℕ → ℚ) (pos : Position)
    (t : ℤ) :
    ∀ (l : List (ℕ × ℕ)) (d : ℤ → ℤ),
      (∀ rc ∈ l, t ≠ pixelBase imgWidth pos rc ∧
        t ≠ pixelBase imgWidth pos rc + 1 ∧ t ≠ pixelBase imgWidth pos rc + 2) →
      l.foldl (pixelStep imgWidth len am pos) d t = d t
  | [], _, _ => rfl
  | rc :: l, d, h => by
    rw [List.foldl_cons,
      foldl_pixelStep_ne imgWidth len am pos t l _
        (fun p hp => h p (List.mem_cons_of_mem _ hp))]
    have hrc := h rc (List.mem_cons_self _ _)
    exact pixelStep_ne _ _ _ _ _ _ _ hrc.1 hrc.2.1 hrc.2.2

theorem foldl_pixelStep_eq_or (imgWidth len : ℕ) (am : ℕ → ℚ) (pos : Position) :
    ∀ (l : List (ℕ × ℕ)) (d d0 : ℤ → ℤ),
      (∀ j, d j = d0 j ∨ (0 ≤ d j ∧ d j ≤ 255)) →
      ∀ j, l.foldl (pixelStep imgWidth len am pos) d j = d0 j ∨
        (0 ≤ l.foldl (pixelStep imgWidth len am pos) d j ∧
          l.foldl (pixelStep imgWidth len am pos) d j ≤ 255)
  | [], _, _, h => h
  | rc :: l, d, d0, h => by
    rw [List.foldl_cons]
    refine foldl_pixelStep_eq_or imgWidth len am pos l _ d0 (fun j => ?_)
    rcases pixelStep_eq_or imgWidth len am pos d rc j with he | hr
    · rw [he]
      exact h j
    · exact Or.inr hr

theorem foldl_pixelStep_id (imgWidth len : ℕ) (am : ℕ → ℚ) (pos : Position) :
    ∀ (l : List (ℕ × ℕ)) (d : ℤ → ℤ),
      (∀ rc ∈ l, am (rc.1 * pos.width.toNat + rc.2) < ALPHA_THRESHOLD) →
      l.foldl (pixelStep imgWidth len am pos) d = d
  | [], _, _ => rfl
  | rc :: l, d, h => by
    rw [List.foldl_cons, pixelStep_skip _ _ _ _ _ _ (h rc (List.mem_cons_self _ _))]
    exact foldl_pixelStep_id imgWidth len am pos l d
      (fun p hp => h p (List.mem_cons_of_mem _ hp))

/-! ### The footprint pixel list -/

theorem mem_footprintPixels (pos : Position) (rc : ℕ × ℕ) :
    rc ∈ footprintPixels pos ↔
      rc.1 < pos.height.toNat ∧ rc.2 < pos.width.toNat := by
  unfold footprintPixels
  simp only [List.mem_flatMap, List.mem_map, List.mem_range]
  constructor
  · rintro ⟨r, hr, c, hc, rfl⟩
    exact ⟨hr, hc⟩
  · rintro ⟨h1, h2⟩
    exact ⟨rc.1, h1, rc.2, h2, rfl⟩

theorem footprintPixels_nodup (pos : Position) : (footprintPixels pos).Nodup := by
  unfold footprintPixels
  rw [List.nodup_flatMap]
  constructor
  · intro r _
    exact (List.nodup_range _).map (fun a b h => by
      simpa using congrArg Prod.snd h)
  · have hlt := List.pairwise_lt_range pos.height.toNat
    refine hlt.imp ?_
    intro r₁ r₂ hr p hp₁ hp₂
    simp only [Function.onFun, List.mem_map, List.mem_range] at hp₁ hp₂
    obtain ⟨c₁, _, rfl⟩ := hp₁
    obtain ⟨c₂, _, he⟩ := hp₂
    have := congrArg Prod.fst he
    simp only at this
    omega

theorem exists_nodup_split {α : Type} {l : List α} {a : α}
    (hm : a ∈ l) (hn : l.Nodup) :
    ∃ l₁ l₂, l = l₁ ++ a :: l₂ ∧ a ∉ l₁ ∧ a ∉ l₂ := by
  obtain ⟨l₁, l₂, rfl⟩ := List.append_of_mem hm
  refine ⟨l₁, l₂, rfl, ?_, ?_⟩
  · intro hal₁
    exact List.disjoint_of_nodup_append hn hal₁ (List.mem_cons_self _ _)
  · exact (List.nodup_cons.mp (List.nodup_append.mp hn).2.1).1

/-! ### Index arithmetic for in-bounds footprints -/

theorem footprint_coord_bounds (imgWidth imgHeight : ℕ) (pos : Position)
    (hb : pos.inBounds imgWidth imgHeight) (r c : ℕ)
    (hr : r < pos.height.toNat) (hc : c < pos.width.toNat) :
    0 ≤ pos.x + c ∧ pos.x + c < (imgWidth : ℤ) ∧
    0 ≤ pos.y + r ∧ pos.y + r < (imgHeight : ℤ) := by
  obtain ⟨hx0, hx1, hy0, hy1⟩ := hb
  omega

theorem pixelBase_inj (imgWidth imgHeight : ℕ) (pos : Position)
    (hb : pos.inBounds imgWidth imgHeight)
    (r₁ c₁ r₂ c₂ : ℕ)
    (h1 : r₁ < pos.height.toNat) (h2 : c₁ < pos.width.toNat)
    (h3 : r₂ < pos.height.toNat) (h4 : c₂ < pos.width.toNat)
    (k₁ k₂ : ℤ) (hk₁ : 0 ≤ k₁ ∧ k₁ < 4) (hk₂ : 0 ≤ k₂ ∧ k₂ < 4)
    (heq : pixelBase imgWidth pos (r₁, c₁) + k₁ =
      pixelBase imgWidth pos (r₂, c₂) + k₂) :
    r₁ = r₂ ∧ c₁ = c₂ ∧ k₁ = k₂ := by
  obtain ⟨ha1, ha2, ha3, ha4⟩ :=
    footprint_coord_bounds imgWidth imgHeight pos hb r₁ c₁ h1 h2
  obtain ⟨hb1, hb2, hb3, hb4⟩ :=
    footprint_coord_bounds imgWidth imgHeight pos hb r₂ c₂ h3 h4
  unfold pixelBase at heq
  set f₁ : ℤ := (pos.y + r₁) * imgWidth + (pos.x + c₁) with hf₁
  set f₂ : ℤ := (pos.y + r₂) * imgWidth + (pos.x + c₂) with hf₂
  have hf : f₁ = f₂ ∧ k₁ = k₂ := by constructor <;> omega
  have hrow : pos.y + (r₁ : ℤ) = pos.y + r₂ := by
    by_contra hne
    have hmul : ((pos.y + r₁) - (pos.y + r₂)) * imgWidth =
        (pos.x + c₂) - (pos.x + c₁) := by
      have := hf.1
      rw [hf₁, hf₂] at this
      linear_combination this
    rcases lt_or_gt_of_ne hne with hlt | hgt
    · have h5 : (pos.y + (r₁ : ℤ)) - (pos.y + r₂) ≤ -1 := by omega
      have h6 : ((pos.y + (r₁ : ℤ)) - (pos.y + r₂)) * imgWidth ≤
          (-1) * imgWidth :=
        mul_le_mul_of_nonneg_right h5 (by positivity)
      linarith
    · have h5 : 1 ≤ (pos.y + (r₁ : ℤ)) - (pos.y + r₂) := by omega
      have h6 : (1 : ℤ) * imgWidth ≤
          ((pos.y + (r₁ : ℤ)) - (pos.y + r₂)) * imgWidth :=
        mul_le_mul_of_nonneg_right h5 (by positivity)
      linarith
  have hcol : pos.x + (c₁ : ℤ) = pos.x + c₂ := by
    have hff := hf.1
    rw [hf₁, hf₂, hrow] at hff
    exact add_left_cancel hff
  refine ⟨by omega, by omega, hf.2⟩

theorem pixelBase_range (imgWidth imgHeight : ℕ) (pos : Position)
    (hb : pos.inBounds imgWidth imgHeight) (r c k : ℕ)
    (hr : r < pos.height.toNat) (hc : c < pos.width.toNat) (hk : k < 4) :
    0 ≤ pixelBase imgWidth pos (r, c) + (k : ℤ) ∧
    pixelBase imgWidth pos (r, c) + (k : ℤ) <
      ((imgWidth * imgHeight * 4 : ℕ) : ℤ) := by
  obtain ⟨ha1, ha2, ha3, ha4⟩ :=
    footprint_coord_bounds imgWidth imgHeight pos hb r c hr hc
  have hk0 : (0 : ℤ) ≤ (k : ℤ) := by positivity
  have hk3 : (k : ℤ) ≤ 3 := by omega
  have hb' : pos.x + (c : ℤ) + 1 ≤ (imgWidth : ℤ) := by omega
  unfold pixelBase
  push_cast
  constructor
  · have h1 : 0 ≤ (pos.y + (r : ℤ)) * imgWidth := mul_nonneg ha3 (by positivity)
    linarith
  · have h2 : (pos.y + (r : ℤ)) * imgWidth ≤ ((imgHeight : ℤ) - 1) * imgWidth :=
      mul_le_mul_of_nonneg_right (by omega) (by positivity)
    nlinarith

/-- Value of removeWatermark at any color byte of the footprint, when the
footprint lies fully inside the image: the pixel is skipped when its alpha
entry is below ALPHA_THRESHOLD, otherwise the channel is rewritten to the
restored value computed from the clamped alpha. -/
theorem removeWatermark_data_at (img : ImageData) (am : ℕ → ℚ) (pos : Position)
    (hb : pos.inBounds img.width img.height)
    (row col c : ℕ) (hrow : row < pos.height.toNat)
    (hcol : col < pos.width.toNat) (hc : c < 3) :
    (removeWatermark img am pos).data (pixelBase img.width pos (row, col) + (c : ℤ)) =
      if am (row * pos.width.toNat + col) < ALPHA_THRESHOLD then
        img.data (pixelBase img.width pos (row, col) + (c : ℤ))
      else restoreChannel (min (am (row * pos.width.toNat + col)) MAX_ALPHA)
        (img.data (pixelBase img.width pos (row, col) + (c : ℤ))) := by
  have hm : (row, col) ∈ footprintPixels pos :=
    (mem_footprintPixels pos (row, col)).mpr ⟨hrow, hcol⟩
  obtain ⟨l₁, l₂, hsplit, hn₁, hn₂⟩ :=
    exists_nodup_split hm (footprintPixels_nodup pos)
  have huntouched : ∀ rc ∈ footprintPixels pos, rc ≠ (row, col) →
      pixelBase img.width pos (row, col) + (c : ℤ) ≠ pixelBase img.width pos rc ∧
      pixelBase img.width pos (row, col) + (c : ℤ) ≠ pixelBase img.width pos rc + 1 ∧
      pixelBase img.width pos (row, col) + (c : ℤ) ≠ pixelBase img.width pos rc + 2 := by
    intro rc hrc hne
    obtain ⟨hr', hc'⟩ := (mem_footprintPixels pos rc).mp hrc
    refine ⟨fun he => ?_, fun he => ?_, fun he => ?_⟩
    · obtain ⟨e1, e2, _⟩ := pixelBase_inj img.width img.height pos hb
        row col rc.1 rc.2 hrow hcol hr' hc' (c : ℤ) 0
        (by omega) (by omega) (by simpa using he)
      exact hne (by rw [Prod.ext_iff]; exact ⟨e1.symm, e2.symm⟩)
    · obtain ⟨e1, e2, _⟩ := pixelBase_inj img.width img.height pos hb
        row col rc.1 rc.2 hrow hcol hr' hc' (c : ℤ) 1
        (by omega) (by omega) (by simpa using he)
      exact hne (by rw [Prod.ext_iff]; exact ⟨e1.symm, e2.symm⟩)
    · obtain ⟨e1, e2, _⟩ := pixelBase_inj img.width img.height pos hb
        row col rc.1 rc.2 hrow hcol hr' hc' (c : ℤ) 2
        (by omega) (by omega) (by simpa using he)
      exact hne (by rw [Prod.ext_iff]; exact ⟨e1.symm, e2.symm⟩)
  have hl₁ : ∀ rc ∈ l₁,
      pixelBase img.width pos (row, col) + (c : ℤ) ≠ pixelBase img.width pos rc ∧
      pixelBase img.width pos (row, col) + (c : ℤ) ≠ pixelBase img.width pos rc + 1 ∧
      pixelBase img.width pos (row, col) + (c : ℤ) ≠ pixelBase img.width pos rc + 2 :=
    fun rc h => huntouched rc
      (by rw [hsplit]; exact List.mem_append_left _ h)
      (fun he => hn₁ (he ▸ h))
  have hl₂ : ∀ rc ∈ l₂,
      pixelBase img.width pos (row, col) + (c : ℤ) ≠ pixelBase img.width pos rc ∧
      pixelBase img.width pos (row, col) + (c : ℤ) ≠ pixelBase img.width pos rc + 1 ∧
      pixelBase img.width pos (row, col) + (c : ℤ) ≠ pixelBase img.width pos rc + 2 :=
    fun rc h => huntouched rc
      (by rw [hsplit]
          exact List.mem_append_right _ (List.mem_cons_of_mem _ h))
      (fun he => hn₂ (he ▸ h))
  have hrange := pixelBase_range img.width img.height pos hb row col c hrow hcol
    (by omega)
  have hlen : ((img.len : ℕ) : ℤ) = ((img.width * img.height * 4 : ℕ) : ℤ) := rfl
  show ((footprintPixels pos).foldl
      (pixelStep img.width img.len am pos) img.data)
      (pixelBase img.width pos (row, col) + (c : ℤ)) = _
  rw [hsplit, List.foldl_append, List.foldl_cons]
  rw [foldl_pixelStep_ne img.width img.len am pos _ l₂ _ hl₂]
  rw [pixelStep_at img.width img.len am pos _ (row, col) c hc]
  rw [foldl_pixelStep_ne img.width img.len am pos _ l₁ img.data hl₁]
  by_cases hα : am (row * pos.width.toNat + col) < ALPHA_THRESHOLD
  · rw [if_pos hα, if_pos hα]
  · rw [if_neg hα, if_neg hα, if_pos (hlen ▸ hrange)]

/-! ### The algebraic round trip -/

theorem restore_composite_close (a : ℚ) (o : ℤ)
    (ha1 : ALPHA_THRESHOLD ≤ a) (ha2 : a < 2/3)
    (ho0 : 0 ≤ o) (ho1 : o ≤ 255) :
    |restoreChannel (min a MAX_ALPHA) (compositeByte a o) - o| ≤ 1 := by
  have hthr : (2 : ℚ)/1000 ≤ a := ha1
  have hmin : min a MAX_ALPHA = a := by
    apply min_eq_left
    unfold MAX_ALPHA
    linarith
  have hden : (0 : ℚ) < 1 - a := by linarith
  have hw1 : ((compositeByte a o : ℤ) : ℚ) ≤ (a * 255 + (1 - a) * o) + 1/2 := by
    unfold compositeByte jsRound
    exact Int.floor_le _
  have hw2 : (a * 255 + (1 - a) * o) - 1/2 < ((compositeByte a o : ℤ) : ℚ) := by
    unfold compositeByte jsRound
    have := Int.lt_floor_add_one (a * 255 + (1 - a) * (o : ℚ) + 1/2)
    linarith
  have key : (((compositeByte a o : ℤ) : ℚ) - a * LOGO_VALUE) / (1 - a) =
      (o : ℚ) + (((compositeByte a o : ℤ) : ℚ) - (a * 255 + (1 - a) * o)) / (1 - a) := by
    unfold LOGO_VALUE
    field_simp
    ring
  have hεu : (((compositeByte a o : ℤ) : ℚ) - (a * 255 + (1 - a) * o)) / (1 - a)
      < 3/2 := by
    rw [div_lt_iff₀ hden]
    linarith
  have hεl : -(3/2) <
      (((compositeByte a o : ℤ) : ℚ) - (a * 255 + (1 - a) * o)) / (1 - a) := by
    rw [lt_div_iff₀ hden]
    linarith
  have hfl : jsRound ((o : ℚ) +
      (((compositeByte a o : ℤ) : ℚ) - (a * 255 + (1 - a) * o)) / (1 - a)) =
      o + ⌊(((compositeByte a o : ℤ) : ℚ) - (a * 255 + (1 - a) * o)) / (1 - a)
        + 1/2⌋ := by
    unfold jsRound
    rw [show (o : ℚ) +
        (((compositeByte a o : ℤ) : ℚ) - (a * 255 + (1 - a) * o)) / (1 - a) + 1/2 =
        ((((compositeByte a o : ℤ) : ℚ) - (a * 255 + (1 - a) * o)) / (1 - a) + 1/2)
          + (o : ℤ) by ring]
    rw [Int.floor_add_int, add_comm]
  have hk1 : ⌊(((compositeByte a o : ℤ) : ℚ) - (a * 255 + (1 - a) * o)) / (1 - a)
      + 1/2⌋ ≤ 1 := by
    have h2 : ⌊(((compositeByte a o : ℤ) : ℚ) - (a * 255 + (1 - a) * o)) / (1 - a)
        + 1/2⌋ < 2 := Int.floor_lt.mpr (by push_cast; linarith)
    omega
  have hk2 : -1 ≤ ⌊(((compositeByte a o : ℤ) : ℚ) - (a * 255 + (1 - a) * o)) / (1 - a)
      + 1/2⌋ := Int.le_floor.mpr (by push_cast; linarith)
  unfold restoreChannel
  rw [hmin, key, hfl]
  unfold clampByte
  rw [abs_le]
  constructor <;> omega

/-! ### Claims about the pixel pipeline -/

/-- Claim C1 (amended): for a synthetic composite observed =
a*255 + (1-a)*original quantized to bytes, with every footprint alpha in
[0.002, 2/3), removeWatermark recovers each color channel of the original
within plus or minus 1, at every pixel of an in-bounds footprint.  (The
claim's original range [0.002, 0.99] fails: quantizing the composite to a
byte introduces an error of up to 1/2 that the division by 1-a amplifies
to up to 50 near a = 0.99.) -/
theorem C1_roundtrip (orig wm : ImageData) (am : ℕ → ℚ) (pos : Position)
    (hw : wm.width = orig.width) (hh : wm.height = orig.height)
    (hb : pos.inBounds orig.width orig.height)
    (row col c : ℕ) (hrow : row < pos.height.toNat)
    (hcol : col < pos.width.toNat) (hc : c < 3)
    (ha1 : ALPHA_THRESHOLD ≤ am (row * pos.width.toNat + col))
    (ha2 : am (row * pos.width.toNat + col) < 2/3)
    (ho0 : 0 ≤ orig.data (pixelBase orig.width pos (row, col) + (c : ℤ)))
    (ho1 : orig.data (pixelBase orig.width pos (row, col) + (c : ℤ)) ≤ 255)
    (hcomp : wm.data (pixelBase orig.width pos (row, col) + (c : ℤ)) =
      compositeByte (am (row * pos.width.toNat + col))
        (orig.data (pixelBase orig.width pos (row, col) + (c : ℤ)))) :
    |(removeWatermark wm am pos).data (pixelBase orig.width pos (row, col) + (c : ℤ)) -
      orig.data (pixelBase orig.width pos (row, col) + (c : ℤ))| ≤ 1 := by
  have hb' : pos.inBounds wm.width wm.height := by
    rw [hw, hh]
    exact hb
  have hpb : pixelBase wm.width pos (row, col) =
      pixelBase orig.width pos (row, col) := by rw [hw]
  have hv := removeWatermark_data_at wm am pos hb' row col c hrow hcol hc
  rw [hpb] at hv
  rw [hv, if_neg (not_lt.mpr ha1), hcomp]
  exact restore_composite_close _ _ ha1 ha2 ho0 ho1

/-- Witness for C1_roundtrip: a 1-pixel image with original value 100
composited at a = 1/2 (composite byte 178) is restored to within 1. -/
theorem C1_roundtrip_witness :
    |(removeWatermark ⟨1, 1, fun _ => 178⟩ (fun _ => 1/2) ⟨0, 0, 1, 1⟩).data 0 -
      (100 : ℤ)| ≤ 1 := by
  have h := C1_roundtrip ⟨1, 1, fun _ => 100⟩ ⟨1, 1, fun _ => 178⟩ (fun _ => 1/2)
    ⟨0, 0, 1, 1⟩ rfl rfl (by constructor <;> decide)
    0 0 0 (by decide) (by decide) (by decide)
    (by norm_num [ALPHA_THRESHOLD]) (by norm_num) (by norm_num) (by norm_num)
    (by unfold compositeByte jsRound; norm_num [Int.floor_eq_iff])
  simpa [pixelBase] using h

/-- Counterexample to claim C1 as stated: at a = 0.99 (inside the claimed
range [0.002, 0.99]) and original byte 100, the quantized composite is
253 and removeWatermark restores 55, an error of 45, far beyond the
claimed plus or minus 1. -/
theorem C1_counterexample :
    ALPHA_THRESHOLD ≤ (99 : ℚ)/100 ∧ ((99 : ℚ)/100 ≤ 99/100) ∧
    compositeByte (99/100) 100 = 253 ∧
    (removeWatermark ⟨1, 1, fun _ => 253⟩ (fun _ => 99/100) ⟨0, 0, 1, 1⟩).data 0 = 55 ∧
    ¬(|(55 : ℤ) - 100| ≤ 1) := by
  refine ⟨by norm_num [ALPHA_THRESHOLD], le_refl _, ?_, ?_, by decide⟩
  · unfold compositeByte jsRound
    norm_num [Int.floor_eq_iff]
  · norm_num [removeWatermark, footprintPixels, pixelStep, processChannels, writeByte,
      restoreChannel, clampByte, jsRound, ALPHA_THRESHOLD, MAX_ALPHA, LOGO_VALUE,
      ImageData.len, List.range_succ]

/-- Claim C2: for every alpha value (including out-of-range ones such as
1.5) the denominator 1 - min(alpha, MAX_ALPHA) stays at least 1/100, so
the division in removeWatermark is never by zero; and every byte of the
output buffer is either the unchanged input byte or lies in [0, 255]. -/
theorem C2_clamp_and_range :
    (∀ a : ℚ, (1 : ℚ)/100 ≤ 1 - min a MAX_ALPHA) ∧
    ∀ (img : ImageData) (am : ℕ → ℚ) (pos : Position) (i : ℤ),
      (removeWatermark img am pos).data i = img.data i ∨
      (0 ≤ (removeWatermark img am pos).data i ∧
        (removeWatermark img am pos).data i ≤ 255) := by
  constructor
  · intro a
    have h := min_le_right a MAX_ALPHA
    unfold MAX_ALPHA at h ⊢
    linarith
  · intro img am pos i
    exact foldl_pixelStep_eq_or img.width img.len am pos (footprintPixels pos)
      img.data img.data (fun _ => Or.inl rfl) i

/-- Claim C4: detectWatermarkConfig selects the Large variant (logo 96,
margins 64,64) exactly when width > 1024 and height > 1024, else the Small
variant (logo 48, margins 32,32); and calculateWatermarkPosition places the
footprint at x = width - marginRight - logoSize,
y = height - marginBottom - logoSize, with a logoSize by logoSize extent. -/
theorem C4_config_and_position (w h : ℤ) :
    (detectWatermarkConfig w h = ⟨96, 64, 64⟩ ↔ (1024 < w ∧ 1024 < h)) ∧
    (detectWatermarkConfig w h = ⟨48, 32, 32⟩ ↔ ¬(1024 < w ∧ 1024 < h)) ∧
    (calculateWatermarkPosition w h (detectWatermarkConfig w h)).x =
      w - (detectWatermarkConfig w h).marginRight -
        (detectWatermarkConfig w h).logoSize ∧
    (calculateWatermarkPosition w h (detectWatermarkConfig w h)).y =
      h - (detectWatermarkConfig w h).marginBottom -
        (detectWatermarkConfig w h).logoSize ∧
    (calculateWatermarkPosition w h (detectWatermarkConfig w h)).width =
      (detectWatermarkConfig w h).logoSize ∧
    (calculateWatermarkPosition w h (detectWatermarkConfig w h)).height =
      (detectWatermarkConfig w h).logoSize := by
  refine ⟨?_, ?_, rfl, rfl, rfl, rfl⟩
  · unfold detectWatermarkConfig
    split
    · rename_i hcase
      simpa using hcase
    · rename_i hcase
      simpa using hcase
  · unfold detectWatermarkConfig
    split
    · rename_i hcase
      simpa using hcase
    · rename_i hcase
      simpa using hcase

/-! ### Frame effects of removeWatermark -/

theorem flat_index_unique (W : ℕ) (a₁ b₁ a₂ b₂ : ℤ)
    (h₁ : 0 ≤ b₁) (h₂ : b₁ < W) (h₃ : 0 ≤ b₂) (h₄ : b₂ < W)
    (h : a₁ * W + b₁ = a₂ * W + b₂) : a₁ = a₂ ∧ b₁ = b₂ := by
  have ha : a₁ = a₂ := by
    by_contra hne
    have hmul : (a₁ - a₂) * W = b₂ - b₁ := by linear_combination h
    rcases lt_or_gt_of_ne hne with hlt | hgt
    · have h5 : a₁ - a₂ ≤ -1 := by omega
      have h6 : (a₁ - a₂) * W ≤ (-1) * W :=
        mul_le_mul_of_nonneg_right h5 (by positivity)
      linarith
    · have h5 : 1 ≤ a₁ - a₂ := by omega
      have h6 : (1 : ℤ) * W ≤ (a₁ - a₂) * W :=
        mul_le_mul_of_nonneg_right h5 (by positivity)
      linarith
  subst ha
  exact ⟨rfl, (add_left_cancel h).symm ▸ rfl⟩

/-- The fourth (alpha) byte of every pixel is never written: every store of
the loop lands at an index congruent to 0, 1 or 2 modulo 4. -/
theorem removeWatermark_alpha_byte (img : ImageData) (am : ℕ → ℚ)
    (pos : Position) (t : ℤ) (ht : t % 4 = 3) :
    (removeWatermark img am pos).data t = img.data t := by
  show ((footprintPixels pos).foldl
    (pixelStep img.width img.len am pos) img.data) t = _
  refine foldl_pixelStep_ne img.width img.len am pos t _ img.data ?_
  intro rc _
  unfold pixelBase
  generalize ((pos.y + (rc.1 : ℤ)) * img.width + (pos.x + (rc.2 : ℤ))) = f
  omega

/-- For an in-bounds footprint, a byte belonging to a pixel outside the
footprint is never written. -/
theorem removeWatermark_outside (img : ImageData) (am : ℕ → ℚ) (pos : Position)
    (hb : pos.inBounds img.width img.height) (px py : ℤ) (c : ℕ)
    (hpx0 : 0 ≤ px) (hpx1 : px < img.width)
    (_hpy0 : 0 ≤ py) (_hpy1 : py < img.height) (hc : c < 4)
    (hout : ¬(pos.x ≤ px ∧ px < pos.x + pos.width ∧
      pos.y ≤ py ∧ py < pos.y + pos.height)) :
    (removeWatermark img am pos).data ((py * img.width + px) * 4 + (c : ℤ)) =
      img.data ((py * img.width + px) * 4 + (c : ℤ)) := by
  show ((footprintPixels pos).foldl
    (pixelStep img.width img.len am pos) img.data) _ = _
  refine foldl_pixelStep_ne img.width img.len am pos _ _ img.data ?_
  intro rc hrc
  obtain ⟨hr', hc'⟩ := (mem_footprintPixels pos rc).mp hrc
  obtain ⟨hb1, hb2, hb3, hb4⟩ :=
    footprint_coord_bounds img.width img.height pos hb rc.1 rc.2 hr' hc'
  have hkey : ∀ k : ℤ, 0 ≤ k → k < 4 →
      (py * img.width + px) * 4 + (c : ℤ) ≠ pixelBase img.width pos rc + k := by
    intro k hk0 hk1 he
    unfold pixelBase at he
    set A := py * (img.width : ℤ) + px with hA
    set B := (pos.y + (rc.1 : ℤ)) * img.width + (pos.x + (rc.2 : ℤ)) with hB
    have h1 : A = B := by omega
    rw [hA, hB] at h1
    have h2 := flat_index_unique img.width py px (pos.y + rc.1) (pos.x + rc.2)
      hpx0 hpx1 hb1 hb2 h1
    apply hout
    have e1 := h2.1
    have e2 := h2.2
    refine ⟨by omega, by omega, by omega, by omega⟩
  exact ⟨by simpa using hkey 0 (by norm_num) (by norm_num),
    hkey 1 (by norm_num) (by norm_num), hkey 2 (by norm_num) (by norm_num)⟩

/-- When the alpha map is zero except at map index i₀, hit exactly by loop
iteration (r₀, c₀), the whole loop reduces to that single iteration (all
other pixels are skipped by the ALPHA_THRESHOLD test). -/
theorem removeWatermark_single_alpha (img : ImageData) (pos : Position)
    (i₀ : ℕ) (a : ℚ) (r₀ c₀ : ℕ)
    (hmem : (r₀, c₀) ∈ footprintPixels pos)
    (huniq : ∀ rc ∈ footprintPixels pos,
      rc.1 * pos.width.toNat + rc.2 = i₀ → rc = (r₀, c₀)) :
    (removeWatermark img (fun i => if i = i₀ then a else 0) pos).data =
      pixelStep img.width img.len (fun i => if i = i₀ then a else 0) pos
        img.data (r₀, c₀) := by
  obtain ⟨l₁, l₂, hsplit, hn₁, hn₂⟩ :=
    exists_nodup_split hmem (footprintPixels_nodup pos)
  have hskip : ∀ l : List (ℕ × ℕ), (∀ rc ∈ l, rc ∈ footprintPixels pos) →
      (∀ rc ∈ l, rc ≠ (r₀, c₀)) → ∀ d : ℤ → ℤ,
      l.foldl (pixelStep img.width img.len
        (fun i => if i = i₀ then a else 0) pos) d = d := by
    intro l hmem' hne d
    apply foldl_pixelStep_id
    intro rc hrc
    have hni : rc.1 * pos.width.toNat + rc.2 ≠ i₀ :=
      fun he => hne rc hrc (huniq rc (hmem' rc hrc) he)
    show (if rc.1 * pos.width.toNat + rc.2 = i₀ then a else 0) < ALPHA_THRESHOLD
    rw [if_neg hni]
    norm_num [ALPHA_THRESHOLD]
  show ((footprintPixels pos).foldl
    (pixelStep img.width img.len (fun i => if i = i₀ then a else 0) pos)
    img.data) = _
  rw [hsplit, List.foldl_append, List.foldl_cons]
  rw [hskip l₂
    (fun rc h => by rw [hsplit]
                    exact List.mem_append_right _ (List.mem_cons_of_mem _ h))
    (fun rc h he => hn₂ (he ▸ h))]
  rw [hskip l₁ (fun rc h => by rw [hsplit]; exact List.mem_append_left _ h)
    (fun rc h he => hn₁ (he ▸ h))]

/-- Claim C5 (amended): removeWatermark never changes the fourth
(alpha/opacity) byte of any pixel; and whenever the footprint lies fully
inside the image, every byte of a pixel outside the footprint is left
unchanged.  (The claim's unrestricted form fails: when the image is
smaller than the footprint the out-of-bounds index arithmetic wraps
around the row-major buffer and overwrites pixels outside the footprint.) -/
theorem C5_frame :
    (∀ (img : ImageData) (am : ℕ → ℚ) (pos : Position) (t : ℤ), t % 4 = 3 →
      (removeWatermark img am pos).data t = img.data t) ∧
    (∀ (img : ImageData) (am : ℕ → ℚ) (pos : Position),
      pos.inBounds img.width img.height →
      ∀ (px py : ℤ) (c : ℕ), 0 ≤ px → px < img.width → 0 ≤ py →
        py < img.height → c < 4 →
        ¬(pos.x ≤ px ∧ px < pos.x + pos.width ∧
          pos.y ≤ py ∧ py < pos.y + pos.height) →
        (removeWatermark img am pos).data ((py * img.width + px) * 4 + (c : ℤ)) =
          img.data ((py * img.width + px) * 4 + (c : ℤ))) :=
  ⟨removeWatermark_alpha_byte,
    fun img am pos hb px py c h1 h2 h3 h4 h5 h6 =>
      removeWatermark_outside img am pos hb px py c h1 h2 h3 h4 h5 h6⟩

/-- Witness for C5_frame: on a 2x2 image with footprint at (1,1) of size
1x1, the alpha byte at index 3 and the bytes of the outside pixel (0,0)
are unchanged. -/
theorem C5_frame_witness :
    (removeWatermark ⟨2, 2, fun _ => 7⟩ (fun _ => 1/2) ⟨1, 1, 1, 1⟩).data 3 =
      (7 : ℤ) ∧
    (removeWatermark ⟨2, 2, fun _ => 7⟩ (fun _ => 1/2) ⟨1, 1, 1, 1⟩).data 0 =
      (7 : ℤ) := by
  constructor
  · exact C5_frame.1 ⟨2, 2, fun _ => 7⟩ (fun _ => 1/2) ⟨1, 1, 1, 1⟩ 3 (by decide)
  · have h := C5_frame.2 ⟨2, 2, fun _ => 7⟩ (fun _ => 1/2) ⟨1, 1, 1, 1⟩
      (by constructor <;> decide) 0 0 0
      (by decide) (by decide) (by decide) (by decide) (by decide) (by decide)
    simpa using h

/-- Counterexample to claim C5 as stated: on a 50x50 image the pipeline
computes the footprint at (-30,-30) size 48; the pixel at column 20, row 0
lies outside that footprint (its right edge is at column 18), yet its
first color byte is rewritten from 100 to 0 because the out-of-bounds
index arithmetic wraps around the buffer. -/
theorem C5_counterexample :
    ((calculateWatermarkPosition 50 50 (detectWatermarkConfig 50 50)).x +
      (calculateWatermarkPosition 50 50 (detectWatermarkConfig 50 50)).width
        ≤ 20) ∧
    (removeWatermarkFromImage (fun _ => fun i => if i = 1488 then (1:ℚ)/2 else 0)
        ⟨50, 50, fun _ => 100⟩).data ((0 * 50 + 20) * 4) = 0 ∧
    ((0 : ℤ) ≠ 100) := by
  refine ⟨by decide, ?_, by decide⟩
  have hpipe : removeWatermarkFromImage
      (fun _ => fun i => if i = 1488 then (1:ℚ)/2 else 0) ⟨50, 50, fun _ => 100⟩ =
      removeWatermark ⟨50, 50, fun _ => 100⟩
        (fun i => if i = 1488 then (1:ℚ)/2 else 0) ⟨-30, -30, 48, 48⟩ := by
    unfold removeWatermarkFromImage
    norm_num [detectWatermarkConfig, calculateWatermarkPosition]
  rw [hpipe]
  have hw48 : (⟨-30, -30, 48, 48⟩ : Position).width.toNat = 48 := rfl
  have hsingle := removeWatermark_single_alpha ⟨50, 50, fun _ => 100⟩
    ⟨-30, -30, 48, 48⟩ 1488 (1/2) 31 0
    ((mem_footprintPixels _ _).mpr ⟨by decide, by decide⟩)
    (fun rc hrc he => by
      obtain ⟨h1, h2⟩ := (mem_footprintPixels _ _).mp hrc
      rw [hw48] at h2 he
      rw [Prod.ext_iff]
      constructor <;> omega)
  rw [congrFun hsingle ((0 * 50 + 20) * 4)]
  norm_num [pixelStep, processChannels, writeByte, restoreChannel, clampByte,
    jsRound, ALPHA_THRESHOLD, MAX_ALPHA, LOGO_VALUE, ImageData.len,
    show Int.toNat 48 = 48 from rfl]

/-- Claim C3 evaluation (the guard the spec asserts does not exist): a
50x50 image is smaller than the Small-variant footprint
(marginRight + logoSize = 80 > 50), yet the pipeline still processes it:
with an alpha map that is 1/2 at footprint entry (30,30) and 0 elsewhere,
byte 0 of the buffer changes from 100 to 0. -/
theorem C3_small_image_modified :
    (50 < (detectWatermarkConfig 50 50).marginRight +
      (detectWatermarkConfig 50 50).logoSize) ∧
    (removeWatermarkFromImage (fun _ => fun i => if i = 1470 then (1:ℚ)/2 else 0)
        ⟨50, 50, fun _ => 100⟩).data 0 = 0 ∧
    ((0 : ℤ) ≠ 100) := by
  refine ⟨by decide, ?_, by decide⟩
  have hpipe : removeWatermarkFromImage
      (fun _ => fun i => if i = 1470 then (1:ℚ)/2 else 0) ⟨50, 50, fun _ => 100⟩ =
      removeWatermark ⟨50, 50, fun _ => 100⟩
        (fun i => if i = 1470 then (1:ℚ)/2 else 0) ⟨-30, -30, 48, 48⟩ := by
    unfold removeWatermarkFromImage
    norm_num [detectWatermarkConfig, calculateWatermarkPosition]
  rw [hpipe]
  have hw48 : (⟨-30, -30, 48, 48⟩ : Position).width.toNat = 48 := rfl
  have hsingle := removeWatermark_single_alpha ⟨50, 50, fun _ => 100⟩
    ⟨-30, -30, 48, 48⟩ 1470 (1/2) 30 30
    ((mem_footprintPixels _ _).mpr ⟨by decide, by decide⟩)
    (fun rc hrc he => by
      obtain ⟨h1, h2⟩ := (mem_footprintPixels _ _).mp hrc
      rw [hw48] at h2 he
      rw [Prod.ext_iff]
      constructor <;> omega)
  rw [congrFun hsingle 0]
  norm_num [pixelStep, processChannels, writeByte, restoreChannel, clampByte,
    jsRound, ALPHA_THRESHOLD, MAX_ALPHA, LOGO_VALUE, ImageData.len,
    show Int.toNat 48 = 48 from rfl]

/-- Claim C6 (violation trace): the invariant cursor ≤ len(items) fails
on the code.  Complete a one-prompt run (cursor becomes 1), then click
Start with an emptied prompt box and valid delays: the handler stores the
freshly parsed (empty) prompt list before validation fails and returns,
leaving currentIndex = 1 > 0 = len(items). -/
theorem C6_cursor_exceeds_items :
    ∃ s : PanelState, Reachable s ∧ s.prompts.length < s.currentIndex := by
  refine ⟨(startClick (stepTop (stepItem (stepTop
    (startClick initState ["a"] 5 10 true).1 0) 0 (.result true)) 1)
      [] 5 10 true).1, ?_, by decide⟩
  have h1 : Step true initState (startClick initState ["a"] 5 10 true).1 :=
    Step.start initState ["a"] 5 10 true rfl (Or.inl rfl) (Or.inl rfl)
  have h2 : Step true (startClick initState ["a"] 5 10 true).1
      (stepTop (startClick initState ["a"] 5 10 true).1 0) :=
    Step.top _ 0 (by decide)
  have h3 : Step true (stepTop (startClick initState ["a"] 5 10 true).1 0)
      (stepItem (stepTop (startClick initState ["a"] 5 10 true).1 0) 0
        (.result true)) :=
    Step.item _ 0 (.result true) (by decide)
  have h4 : Step true (stepItem (stepTop
      (startClick initState ["a"] 5 10 true).1 0) 0 (.result true))
      (stepTop (stepItem (stepTop
        (startClick initState ["a"] 5 10 true).1 0) 0 (.result true)) 1) :=
    Step.top _ 1 (by decide)
  have h5 : Step true (stepTop (stepItem (stepTop
      (startClick initState ["a"] 5 10 true).1 0) 0 (.result true)) 1)
      (startClick (stepTop (stepItem (stepTop
        (startClick initState ["a"] 5 10 true).1 0) 0 (.result true)) 1)
          [] 5 10 true).1 :=
    Step.start _ [] 5 10 true rfl (Or.inr (by decide)) (by decide)
  exact Relation.ReflTransGen.tail
    (Relation.ReflTransGen.tail
      (Relation.ReflTransGen.tail
        (Relation.ReflTransGen.tail
          (Relation.ReflTransGen.tail Relation.ReflTransGen.refl h1) h2) h3) h4)
    h5

/-- Claim C7 (amended): validateSettings passes exactly when the parsed
list is non-empty, min is at least 5 and min is below max; on a failing
input the start handler reports the errors and leaves the run state
(isRunning, isPaused, currentIndex, status, loop) untouched, though it
has already overwritten state.prompts with the freshly parsed list; on a
passing input (with the external tab check succeeding) the job starts
running at item 0. -/
theorem C7_start_validation (s : PanelState) (parsedPrompts : List String)
    (minDelay maxDelay : ℤ) (envOk : Bool) :
    (validateSettings parsedPrompts minDelay maxDelay = [] ↔
      (parsedPrompts ≠ [] ∧ 5 ≤ minDelay ∧ minDelay < maxDelay)) ∧
    (validateSettings parsedPrompts minDelay maxDelay ≠ [] →
      (startClick s parsedPrompts minDelay maxDelay envOk).1 =
        { s with prompts := parsedPrompts } ∧
      (startClick s parsedPrompts minDelay maxDelay envOk).2 =
        validateSettings parsedPrompts minDelay maxDelay) ∧
    (validateSettings parsedPrompts minDelay maxDelay = [] → envOk = true →
      (startClick s parsedPrompts minDelay maxDelay envOk).1 =
        { s with
          prompts := parsedPrompts
          isRunning := true
          isPaused := false
          currentIndex := 0
          status := .running
          pc := .atTop 0 }) := by
  refine ⟨?_, ?_, ?_⟩
  · unfold validateSettings
    by_cases h1 : parsedPrompts = [] <;>
      by_cases h2 : minDelay ≥ maxDelay <;>
      by_cases h3 : minDelay < 5 <;>
      simp [h1, h2, h3, List.length_eq_zero] <;>
      omega
  · intro h
    unfold startClick
    simp only
    rw [if_pos h]
    exact ⟨rfl, rfl⟩
  · intro h he
    unfold startClick
    simp only
    rw [if_neg (fun hne => hne h), if_neg (by simp [he])]

/-- Witness for C7_start_validation: starting with an empty parsed prompt
list fails validation and leaves the run state untouched. -/
theorem C7_start_validation_witness :
    (startClick initState [] 5 10 true).1 =
      { initState with prompts := ([] : List String) } ∧
    (startClick initState [] 5 10 true).2 =
      validateSettings [] 5 10 :=
  (C7_start_validation initState [] 5 10 true).2.1 (by decide)

/-- Counterexample to claim C7 as stated: a validation-failing start is
not free of state mutation — the handler runs parsePrompts() and stores
its result before validating, so a start with an emptied input box
empties a previously non-empty state.prompts even though validation
fails. -/
theorem C7_counterexample :
    validateSettings [] 5 10 ≠ [] ∧
    (startClick (⟨["old"], false, false, 0, .idle, .notStarted⟩ : PanelState)
        [] 5 10 true).1.prompts ≠ ["old"] := by decide

/-- Claim C8 (amended): when the 3-minute ceiling fires, waitForCompletion
resolves success:false, error:'Timeout'; the batch loop treats this as a
per-item failure and continues with the next item — the job keeps its
running flag, so the timeout is not a job failure — but unlike a success
the progress cursor is not advanced and no inter-item delay is taken. -/
theorem C8_timeout_is_item_failure (s : PanelState) (i : ℕ) :
    (waitForCompletionResult false).success = false ∧
    (waitForCompletionResult false).error = some "Timeout" ∧
    stepItem s i (.result (waitForCompletionResult false).success) =
      { s with pc := .atTop (i + 1) } ∧
    (stepItem s i (.result (waitForCompletionResult false).success)).isRunning =
      s.isRunning ∧
    (stepItem s i (.result (waitForCompletionResult false).success)).currentIndex =
      s.currentIndex :=
  ⟨rfl, rfl, rfl, rfl, rfl⟩

/-- Counterexample to claim C8 as stated: a timeout is not treated as
completion of the item.  From the same state, the success outcome advances
the cursor to 1 and takes the inter-item delay, while the timeout outcome
(success:false) leaves the cursor at 0 and jumps straight to the next
iteration — the two successor states differ. -/
theorem C8_counterexample :
    (waitForCompletionResult false).success = false ∧
    stepItem (⟨["a", "b"], true, false, 0, .running, .atStep 0⟩ : PanelState) 0
        (.result (waitForCompletionResult false).success) ≠
      stepItem (⟨["a", "b"], true, false, 0, .running, .atStep 0⟩ : PanelState) 0
        (.result true) ∧
    (stepItem (⟨["a", "b"], true, false, 0, .running, .atStep 0⟩ : PanelState) 0
      (.result (waitForCompletionResult false).success)).currentIndex = 0 ∧
    (stepItem (⟨["a", "b"], true, false, 0, .running, .atStep 0⟩ : PanelState) 0
      (.result true)).currentIndex = 1 := by decide

theorem step_preserves_notRunning (s s' : PanelState)
    (hstep : Step false s s') (hr : s.isRunning = false) :
    s'.isRunning = false := by
  cases hstep with
  | top i h =>
      unfold stepTop
      split_ifs <;> simp [hr]
  | pauseWait i h =>
      unfold stepPauseWait
      split_ifs <;> simp [hr]
  | item i o h =>
      cases o with
      | tabClosed => rfl
      | connectionLost => rfl
      | otherError => exact hr
      | result success =>
          cases success with
          | false => exact hr
          | true =>
              unfold stepItem
              split_ifs <;> simp [hr]
  | delay i h => exact hr
  | start parsedPrompts minDelay maxDelay envOk ha hpc he => exact absurd ha (by simp)
  | pauseBtn h =>
      unfold pauseClick
      split_ifs <;> simp [hr]
  | stopBtn h => rfl

theorem no_dispatch_when_stopped (s s' : PanelState)
    (hstep : Step false s s') (hr : s.isRunning = false) :
    ¬ dispatchesItem s s' := by
  rintro ⟨j, hj, hne⟩
  cases hstep with
  | top i h =>
      unfold stepTop at hj
      rw [hr] at hj
      split_ifs at hj <;> simp_all
  | pauseWait i h =>
      unfold stepPauseWait at hj
      rw [hr] at hj
      split_ifs at hj <;> simp_all
  | item i o h =>
      cases o with
      | tabClosed => simp [stepItem] at hj
      | connectionLost => simp [stepItem] at hj
      | otherError => simp [stepItem] at hj
      | result success =>
          cases success with
          | false => simp [stepItem] at hj
          | true =>
              unfold stepItem at hj
              split_ifs at hj
  | delay i h => simp [stepDelay] at hj
  | start parsedPrompts minDelay maxDelay envOk ha hpc he =>
      exact absurd ha (by simp)
  | pauseBtn h =>
      unfold pauseClick at hj
      split_ifs at hj <;> exact hne hj
  | stopBtn h => exact hne hj

/-- Claim C10: the stop handler clears both the running and the paused
flag; a batch loop blocked in the pause-wait poll exits it once
isRunning is cleared (the poll requires both flags); and once stop has
been requested, along any continuation with no further start event the
running flag stays cleared and no step ever dispatches another item. -/
theorem C10_stop_no_further_item :
    (∀ s : PanelState,
      (stopClick s).isRunning = false ∧ (stopClick s).isPaused = false) ∧
    (∀ (s : PanelState) (i : ℕ), s.isRunning = false →
      stepPauseWait s i = { s with pc := .done }) ∧
    (∀ s s' : PanelState, s.isRunning = false →
      Relation.ReflTransGen (Step false) s s' →
      s'.isRunning = false ∧
        ∀ s'', Step false s' s'' → ¬ dispatchesItem s' s'') := by
  refine ⟨fun s => ⟨rfl, rfl⟩, ?_, ?_⟩
  · intro s i hr
    unfold stepPauseWait
    rw [hr]
    simp
  · intro s s' hr hrtg
    induction hrtg with
    | refl => exact ⟨hr, fun s'' h => no_dispatch_when_stopped s s'' h hr⟩
    | tail hab hbc ih =>
        have hb := step_preserves_notRunning _ _ hbc ih.1
        exact ⟨hb, fun s'' h => no_dispatch_when_stopped _ s'' h hb⟩

/-- Witness for C10_stop_no_further_item, at the initial state (not
running) with the empty continuation. -/
theorem C10_stop_no_further_item_witness :
    (stopClick initState).isRunning = false ∧
    initState.isRunning = false ∧
    ∀ s'', Step false initState s'' → ¬ dispatchesItem initState s'' := by
  refine ⟨(C10_stop_no_further_item.1 initState).1, rfl, ?_⟩
  exact (C10_stop_no_further_item.2.2 initState initState rfl
    Relation.ReflTransGen.refl).2

/-- Claim C9 (amended): an image already marked processed (marker 'true')
or currently in the in-flight queue is never reprocessed — processImage
returns before any fetch, pixel modification or src change.  (An image
marked 'failed' is NOT protected: the guard compares the marker only
against 'true', so failed images are re-attempted on the next scan.) -/
theorem C9_no_reprocessing (s : ImageProcState)
    (h : s.img.mark = some "true" ∨ s.inQueue = true) :
    processImageBegin s = (s, false) := by
  unfold processImageBegin
  split_ifs <;> simp_all

/-- Witness for C9_no_reprocessing: an already-processed image is left
alone. -/
theorem C9_no_reprocessing_witness :
    processImageBegin ⟨true, true, false, ⟨some "true", "u", none⟩⟩ =
      (⟨true, true, false, ⟨some "true", "u", none⟩⟩, false) :=
  C9_no_reprocessing _ (Or.inl rfl)

/-- Counterexample to claim C9 as stated: an image whose marker is
'failed' passes all the guards — processImage starts a fresh fetch,
clears the src and re-enters the queue, so failed images are
reprocessed. -/
theorem C9_counterexample :
    (processImageBegin ⟨true, true, false, ⟨some "failed", "u", none⟩⟩).2 = true ∧
    (processImageBegin ⟨true, true, false, ⟨some "failed", "u", none⟩⟩).1 ≠
      ⟨true, true, false, ⟨some "failed", "u", none⟩⟩ := by decide

end GeminiAutomator
